import Mathlib

/-!
Verification of the geocoder hierarchy builder (`src/main.py`).

The program ingests street-address records (`GeoEntry`) and organises them
into a containment hierarchy (planet, country, region, city, postcode,
street, number, unit) rooted at a single PLANET node.  Python dictionaries
(`GeoNode.children`, the raw `properties` mapping) are modelled as
association lists with Python-dict semantics: lookup returns the first
binding, assignment replaces the binding in place when the key exists and
appends at the end otherwise.  The in-place mutation performed by
`GeoGraph.add_child` is modelled by state passing: the updated subtree is
written back along the traversed path.  Exceptions (`ValueError` for an
incomplete entry, `KeyError` for a missing country child of the root)
become an `Except` result.
-/

set_option autoImplicit false

/-- Lookup in a Python dictionary, modelled as an association list:
`d.get(k, None)` / `k in d`&`d[k]` return the value of the first binding
of the key, if any. -/
def dictGet {α : Type} : List (String × α) → String → Option α
  | [], _ => none
  | (k', v') :: rest, k => if k' = k then some v' else dictGet rest k

/-- Assignment `d[k] = v` on a Python dictionary, modelled on an
association list: replace the (first) binding of the key in place when the
key is present, append the new binding at the end otherwise. -/
def dictSet {α : Type} : List (String × α) → String → α → List (String × α)
  | [], k, v => [(k, v)]
  | (k', v') :: rest, k, v =>
      if k' = k then (k, v) :: rest else (k', v') :: dictSet rest k v

/-- The levels of the hierarchy, from `GeoNode.NodeType` in the source.
`value` below gives the enum values 0..7. -/
inductive NodeType where
  | PLANET
  | COUNTRY
  | REGION
  | CITY
  | POSTCODE
  | STREET
  | NUMBER
  | UNIT
deriving DecidableEq

/-- The integer value of a level, as in the Python `Enum`. -/
def NodeType.value : NodeType → Nat
  | .PLANET => 0
  | .COUNTRY => 1
  | .REGION => 2
  | .CITY => 3
  | .POSTCODE => 4
  | .STREET => 5
  | .NUMBER => 6
  | .UNIT => 7

/-- One address record (`GeoEntry` in the source).  Each field is either
absent (`none`) or a present string, exactly as produced by
`GeoEntry.from_properties`. -/
structure GeoEntry where
  region : Option String
  postcode : Option String
  city : Option String
  street : Option String
  number : Option String
  unit : Option String
deriving DecidableEq

/-- `GeoEntry.get_entry`: if the key is in the mapping, strip the value
and return it when non-empty; otherwise return `None`. -/
def GeoEntry.get_entry (target_dict : List (String × String)) (target_entry : String) :
    Option String :=
  match dictGet target_dict target_entry with
  | some target_value =>
      let target_value := target_value.trim
      if target_value = "" then none else some target_value
  | none => none

/-- `GeoEntry.from_properties`: build a record by extracting the six
recognised fields from the raw properties mapping. -/
def GeoEntry.from_properties (properties : List (String × String)) : GeoEntry :=
  GeoEntry.mk
    (GeoEntry.get_entry properties "region")
    (GeoEntry.get_entry properties "postcode")
    (GeoEntry.get_entry properties "city")
    (GeoEntry.get_entry properties "street")
    (GeoEntry.get_entry properties "number")
    (GeoEntry.get_entry properties "unit")

/-- `GeoEntry.is_valid`: region, postcode, city and street are all
present. -/
def GeoEntry.is_valid (e : GeoEntry) : Bool :=
  e.region.isSome && e.postcode.isSome && e.city.isSome && e.street.isSome

/-- A node of the hierarchy (`GeoNode` in the source): a label, a level,
and a children dictionary keyed by label. -/
inductive GeoNode where
  | mk (label : String) (node_type : NodeType) (children : List (String × GeoNode)) : GeoNode

/-- The label of a node. -/
def GeoNode.label : GeoNode → String
  | .mk l _ _ => l

/-- The level of a node. -/
def GeoNode.node_type : GeoNode → NodeType
  | .mk _ t _ => t

/-- The children dictionary of a node. -/
def GeoNode.children : GeoNode → List (String × GeoNode)
  | .mk _ _ c => c

/-- Write one child binding of a node (`parent.children[label] = child`
plus the later in-place mutations of that child, which the functional
model applies by writing the final child value back). -/
def GeoNode.setChild (n : GeoNode) (k : String) (v : GeoNode) : GeoNode :=
  GeoNode.mk n.label n.node_type (dictSet n.children k v)

/-- The two exceptions `GeoGraph.add_child` can raise: `ValueError` for an
entry that is missing required data, `KeyError` for a missing country
child of the root. -/
inductive GeoError where
  | valueError
  | keyError
deriving DecidableEq

/-- The graph owner (`GeoGraph` in the source). -/
structure GeoGraph where
  root : GeoNode

/-- `GeoGraph._add_child`: get-or-create a child of `parent_node` keyed by
`child_label`.  Returns the (possibly updated) parent together with the
child the Python function returns: the existing child unchanged when the
label is bound, a fresh node of the given type appended to the children
otherwise. -/
def GeoGraph._add_child (parent_node : GeoNode) (child_label : String)
    (child_type : NodeType) : GeoNode × GeoNode :=
  match dictGet parent_node.children child_label with
  | some child_node => (parent_node, child_node)
  | none =>
      let child_node := GeoNode.mk child_label child_type []
      (GeoNode.mk parent_node.label parent_node.node_type
        (parent_node.children ++ [(child_label, child_node)]), child_node)

/-- The walk of `GeoGraph.add_child` from the country node down: at each
level get-or-create the child keyed by the entry's field and descend into
it.  The in-place mutation of the descended-into child is modelled by
writing the recursively updated child back into the parent's children. -/
def insertLevels : GeoNode → List (String × NodeType) → GeoNode
  | node, [] => node
  | node, (k, t) :: rest =>
      let pc := GeoGraph._add_child node k t
      GeoNode.setChild pc.1 k (insertLevels pc.2 rest)

/-- The `(label, level)` pairs the walk of `GeoGraph.add_child` feeds to
`_add_child` for a given entry, in loop order REGION, CITY, POSTCODE,
STREET, then NUMBER and UNIT unless the walk returns early because the
field is `None`.  The `getD ""` defaults are never reached: `add_child`
only evaluates this list after `is_valid` has passed, which forces the
first four fields to be present. -/
def entryLevels (e : GeoEntry) : List (String × NodeType) :=
  [(e.region.getD "", NodeType.REGION), (e.city.getD "", NodeType.CITY),
   (e.postcode.getD "", NodeType.POSTCODE), (e.street.getD "", NodeType.STREET)]
  ++ match e.number with
     | none => []
     | some n =>
        (n, NodeType.NUMBER) ::
          match e.unit with
          | none => []
          | some u => [(u, NodeType.UNIT)]

/-- The hardcoded country label of `GeoGraph.add_child` and of the driver
setup. -/
def countryLabel : String := "United States of America"

/-- `GeoGraph.add_child`: raise `ValueError` if the entry is not valid;
otherwise walk the levels in sequence.  PLANET visits the root, COUNTRY
looks up the hardcoded country child of the root (raising `KeyError` when
it is absent, as `self.root.children[...]` does), and the remaining levels
run `_add_child` keyed by the entry's fields via `insertLevels`. -/
def GeoGraph.add_child (g : GeoGraph) (child_entry : GeoEntry) :
    Except GeoError GeoGraph :=
  if child_entry.is_valid then
    match dictGet g.root.children countryLabel with
    | some country_node =>
        Except.ok ⟨g.root.setChild countryLabel
          (insertLevels country_node (entryLevels child_entry))⟩
    | none => Except.error GeoError.keyError
  else Except.error GeoError.valueError

/-- The graph the driver (`__main__`) builds before ingesting records: an
"Earth" PLANET root with the single hardcoded COUNTRY child. -/
def initialGraph : GeoGraph :=
  ⟨GeoNode.mk "Earth" NodeType.PLANET
    [(countryLabel, GeoNode.mk countryLabel NodeType.COUNTRY [])]⟩

/-- The mutable state of the driver loop: the graph and the two
counters. -/
structure RunState where
  g : GeoGraph
  num_processed : Nat
  num_incomplete : Nat

/-- One iteration of the driver loop over a parsed entry (lines 138-143
of the source): increment `num_processed`, try `add_child`, and on any
exception increment `num_incomplete` and continue with the graph as it
was. -/
def processEntry (st : RunState) (e : GeoEntry) : RunState :=
  match st.g.add_child e with
  | Except.ok g' => RunState.mk g' (st.num_processed + 1) st.num_incomplete
  | Except.error _ => RunState.mk st.g (st.num_processed + 1) (st.num_incomplete + 1)

/-- Ingest a sequence of entries, keeping the old graph whenever
`add_child` raises, as the driver loop does. -/
def insertAll (g : GeoGraph) (es : List GeoEntry) : GeoGraph :=
  es.foldl (fun g e =>
    match g.add_child e with
    | Except.ok g' => g'
    | Except.error _ => g) g

/-- Follow a list of labels down from a node through the children
dictionaries. -/
def findPath : GeoNode → List String → Option GeoNode
  | n, [] => some n
  | n, k :: rest =>
      match dictGet n.children k with
      | some c => findPath c rest
      | none => none

/-- The levels the walk of `add_child` visits for an entry, in visit
order: PLANET and COUNTRY, then the level of each `_add_child` step. -/
def visitedTypes (e : GeoEntry) : List NodeType :=
  NodeType.PLANET :: NodeType.COUNTRY :: (entryLevels e).map Prod.snd

/-- The graph obtained by inserting records that all share one
region/city/postcode/street spine into the fresh pre-seeded builder: a
single chain Earth, country, region, city, postcode down to some street
subtree. -/
def chainGraph (r c p s : String) (streetSub : GeoNode) : GeoGraph :=
  ⟨GeoNode.mk "Earth" NodeType.PLANET
    [(countryLabel, GeoNode.mk countryLabel NodeType.COUNTRY
      [(r, GeoNode.mk r NodeType.REGION
        [(c, GeoNode.mk c NodeType.CITY
          [(p, GeoNode.mk p NodeType.POSTCODE
            [(s, streetSub)])])])])]⟩

/-- The chain of fresh singleton nodes `insertLevels` builds under a node
with no children. -/
def freshChain (l : String) (t : NodeType) : List (String × NodeType) → GeoNode
  | [] => GeoNode.mk l t []
  | (k, t') :: rest => GeoNode.mk l t [(k, freshChain k t' rest)]

/-- The child `_add_child` descends into: the existing child when the
label is bound, a fresh empty node otherwise. -/
def getOrNew (n : GeoNode) (k : String) (t : NodeType) : GeoNode :=
  match dictGet n.children k with
  | some c => c
  | none => GeoNode.mk k t []

/-! ### Dictionary lemmas -/

theorem dictGet_mem {α : Type} {l : List (String × α)} {k : String} {v : α}
    (h : dictGet l k = some v) : (k, v) ∈ l := by
  induction l with
  | nil => simp [dictGet] at h
  | cons p rest ih =>
    obtain ⟨k', v'⟩ := p
    by_cases hk : k' = k
    · subst hk
      simp [dictGet] at h
      rw [← h]
      exact List.mem_cons_self _ _
    · simp only [dictGet, if_neg hk] at h
      exact List.mem_cons_of_mem _ (ih h)

theorem dictGet_dictSet_self {α : Type} (l : List (String × α)) (k : String) (v : α) :
    dictGet (dictSet l k v) k = some v := by
  induction l with
  | nil => simp [dictGet, dictSet]
  | cons p rest ih =>
    obtain ⟨k', v'⟩ := p
    by_cases hk : k' = k
    · simp [dictSet, if_pos hk, dictGet]
    · simp [dictSet, if_neg hk, dictGet, hk, ih]

theorem dictGet_dictSet_ne {α : Type} {k' k : String} (l : List (String × α)) (v : α)
    (h : k' ≠ k) : dictGet (dictSet l k v) k' = dictGet l k' := by
  induction l with
  | nil => simp [dictSet, dictGet, if_neg (Ne.symm h)]
  | cons p rest ih =>
    obtain ⟨k₀, v₀⟩ := p
    by_cases hk : k₀ = k
    · subst hk
      simp [dictSet, dictGet, if_neg (Ne.symm h)]
    · simp [dictSet, if_neg hk, dictGet, ih]

theorem dictSet_eq_self {α : Type} {l : List (String × α)} {k : String} {v : α}
    (h : dictGet l k = some v) : dictSet l k v = l := by
  induction l with
  | nil => simp [dictGet] at h
  | cons p rest ih =>
    obtain ⟨k', v'⟩ := p
    by_cases hk : k' = k
    · subst hk
      simp [dictGet] at h
      simp [dictSet, h]
    · simp only [dictGet, if_neg hk] at h
      simp [dictSet, if_neg hk, ih h]

theorem dictSet_dictSet {α : Type} (l : List (String × α)) (k : String) (v v' : α) :
    dictSet (dictSet l k v) k v' = dictSet l k v' := by
  induction l with
  | nil => simp [dictSet]
  | cons p rest ih =>
    obtain ⟨k₀, v₀⟩ := p
    by_cases hk : k₀ = k
    · simp [dictSet, if_pos hk]
    · simp [dictSet, if_neg hk, ih]

theorem mem_dictSet {α : Type} {p : String × α} {l : List (String × α)} {k : String} {v : α}
    (h : p ∈ dictSet l k v) : p = (k, v) ∨ p ∈ l := by
  induction l with
  | nil => simpa [dictSet] using h
  | cons q rest ih =>
    obtain ⟨k₀, v₀⟩ := q
    by_cases hk : k₀ = k
    · simp only [dictSet, if_pos hk] at h
      rcases List.mem_cons.mp h with h | h
      · exact Or.inl h
      · exact Or.inr (List.mem_cons_of_mem _ h)
    · simp only [dictSet, if_neg hk] at h
      rcases List.mem_cons.mp h with h | h
      · exact Or.inr (h ▸ List.mem_cons_self _ _)
      · rcases ih h with h | h
        · exact Or.inl h
        · exact Or.inr (List.mem_cons_of_mem _ h)

theorem dictGet_append_some {α : Type} {l : List (String × α)} {k : String} {v : α}
    (l₂ : List (String × α)) (h : dictGet l k = some v) :
    dictGet (l ++ l₂) k = some v := by
  induction l with
  | nil => simp [dictGet] at h
  | cons p rest ih =>
    obtain ⟨k', v'⟩ := p
    by_cases hk : k' = k
    · simp_all [dictGet]
    · simp_all [dictGet, if_neg hk]

theorem dictGet_append_none {α : Type} {l : List (String × α)} {k : String}
    (l₂ : List (String × α)) (h : dictGet l k = none) :
    dictGet (l ++ l₂) k = dictGet l₂ k := by
  induction l with
  | nil => simp
  | cons p rest ih =>
    obtain ⟨k', v'⟩ := p
    by_cases hk : k' = k
    · simp [dictGet, if_pos hk] at h
    · simp_all [dictGet, if_neg hk]

theorem dictSet_append_of_none {α : Type} {l : List (String × α)} {k : String}
    (x v : α) (h : dictGet l k = none) :
    dictSet (l ++ [(k, x)]) k v = l ++ [(k, v)] := by
  induction l with
  | nil => simp [dictSet]
  | cons p rest ih =>
    obtain ⟨k', v'⟩ := p
    by_cases hk : k' = k
    · simp [dictGet, if_pos hk] at h
    · simp_all [dictSet, dictGet, if_neg hk]

/-! ### Node and insertLevels lemmas -/

theorem GeoNode.eta (n : GeoNode) : GeoNode.mk n.label n.node_type n.children = n := by
  cases n; rfl

theorem GeoNode.label_mk (l : String) (t : NodeType) (cs : List (String × GeoNode)) :
    (GeoNode.mk l t cs).label = l := rfl

theorem GeoNode.node_type_mk (l : String) (t : NodeType) (cs : List (String × GeoNode)) :
    (GeoNode.mk l t cs).node_type = t := rfl

theorem GeoNode.children_mk (l : String) (t : NodeType) (cs : List (String × GeoNode)) :
    (GeoNode.mk l t cs).children = cs := rfl

theorem insertLevels_nil (n : GeoNode) : insertLevels n [] = n := rfl

theorem insertLevels_cons_some {n : GeoNode} {k : String} {c : GeoNode}
    (t : NodeType) (rest : List (String × NodeType))
    (h : dictGet n.children k = some c) :
    insertLevels n ((k, t) :: rest) = n.setChild k (insertLevels c rest) := by
  obtain ⟨l, ty, cs⟩ := n
  simp only [GeoNode.children_mk] at h
  simp [insertLevels, GeoGraph._add_child, GeoNode.children_mk, h]

theorem insertLevels_cons_none {n : GeoNode} {k : String}
    (t : NodeType) (rest : List (String × NodeType))
    (h : dictGet n.children k = none) :
    insertLevels n ((k, t) :: rest) =
      GeoNode.mk n.label n.node_type
        (n.children ++ [(k, insertLevels (GeoNode.mk k t []) rest)]) := by
  obtain ⟨l, ty, cs⟩ := n
  simp only [GeoNode.children_mk] at h
  simp [insertLevels, GeoGraph._add_child, GeoNode.children_mk, GeoNode.label_mk,
    GeoNode.node_type_mk, h, GeoNode.setChild, dictSet_append_of_none _ _ h]

theorem insertLevels_label (n : GeoNode) (L : List (String × NodeType)) :
    (insertLevels n L).label = n.label := by
  cases L with
  | nil => rfl
  | cons p rest =>
    obtain ⟨k, t⟩ := p
    cases h : dictGet n.children k with
    | some c => rw [insertLevels_cons_some t rest h]; rfl
    | none => rw [insertLevels_cons_none t rest h]; rfl

theorem insertLevels_node_type (n : GeoNode) (L : List (String × NodeType)) :
    (insertLevels n L).node_type = n.node_type := by
  cases L with
  | nil => rfl
  | cons p rest =>
    obtain ⟨k, t⟩ := p
    cases h : dictGet n.children k with
    | some c => rw [insertLevels_cons_some t rest h]; rfl
    | none => rw [insertLevels_cons_none t rest h]; rfl

theorem dictGet_insertLevels_self (n : GeoNode) (k : String) (t : NodeType)
    (rest : List (String × NodeType)) :
    dictGet (insertLevels n ((k, t) :: rest)).children k =
      some (insertLevels (getOrNew n k t) rest) := by
  cases h : dictGet n.children k with
  | some c =>
    rw [insertLevels_cons_some t rest h]
    obtain ⟨l, ty, cs⟩ := n
    simp only [GeoNode.children_mk] at h
    simp [GeoNode.setChild, GeoNode.children_mk, dictGet_dictSet_self, getOrNew, h]
  | none =>
    rw [insertLevels_cons_none t rest h]
    obtain ⟨l, ty, cs⟩ := n
    simp only [GeoNode.children_mk] at h
    simp only [GeoNode.children_mk, getOrNew, h]
    rw [dictGet_append_none _ h]
    simp [dictGet]

theorem dictGet_insertLevels_ne {k' k : String} (n : GeoNode) (t : NodeType)
    (rest : List (String × NodeType)) (hne : k' ≠ k) :
    dictGet (insertLevels n ((k, t) :: rest)).children k' = dictGet n.children k' := by
  cases h : dictGet n.children k with
  | some c =>
    rw [insertLevels_cons_some t rest h]
    obtain ⟨l, ty, cs⟩ := n
    simp [GeoNode.setChild, GeoNode.children_mk, dictGet_dictSet_ne _ _ hne]
  | none =>
    rw [insertLevels_cons_none t rest h]
    obtain ⟨l, ty, cs⟩ := n
    simp only [GeoNode.children_mk] at h
    simp only [GeoNode.children_mk]
    cases h' : dictGet cs k' with
    | some v => rw [dictGet_append_some _ h']
    | none => rw [dictGet_append_none _ h']; simp [dictGet, Ne.symm hne]

/-! ### Level-ordering invariant -/

theorem GeoNode.setChild_children (n : GeoNode) (k : String) (v : GeoNode) :
    (n.setChild k v).children = dictSet n.children k v := rfl

theorem GeoNode.setChild_node_type (n : GeoNode) (k : String) (v : GeoNode) :
    (n.setChild k v).node_type = n.node_type := rfl

theorem GeoNode.setChild_label (n : GeoNode) (k : String) (v : GeoNode) :
    (n.setChild k v).label = n.label := rfl

theorem NodeType.value_inj {a b : NodeType} (h : a.value = b.value) : a = b := by
  cases a <;> cases b <;> simp_all [NodeType.value]

/-- The types of the bindings in a level list have the consecutive values
`n, n + 1, ...`. -/
def consecFrom : Nat → List (String × NodeType) → Prop
  | _, [] => True
  | n, (_, t) :: rest => t.value = n ∧ consecFrom (n + 1) rest

/-- Every node's children all sit exactly one level below the node,
recursively. -/
inductive LevelsOk : GeoNode → Prop where
  | intro : ∀ (n : GeoNode),
      (∀ p : String × GeoNode, p ∈ n.children →
        p.2.node_type.value = n.node_type.value + 1) →
      (∀ p : String × GeoNode, p ∈ n.children → LevelsOk p.2) →
      LevelsOk n

theorem LevelsOk.children_of {n : GeoNode} (h : LevelsOk n) :
    ∀ p : String × GeoNode, p ∈ n.children →
      p.2.node_type.value = n.node_type.value + 1 ∧ LevelsOk p.2 := by
  cases h with
  | intro n h₁ h₂ => exact fun p hp => ⟨h₁ p hp, h₂ p hp⟩

theorem insertLevels_levelsOk {n : GeoNode} {L : List (String × NodeType)}
    (hn : LevelsOk n) (hL : consecFrom (n.node_type.value + 1) L) :
    LevelsOk (insertLevels n L) := by
  induction L generalizing n with
  | nil => exact hn
  | cons p rest ih =>
    obtain ⟨k, t⟩ := p
    obtain ⟨ht, hrest⟩ := hL
    cases h : dictGet n.children k with
    | some c =>
      rw [insertLevels_cons_some t rest h]
      have hc := hn.children_of (k, c) (dictGet_mem h)
      constructor
      · intro q hq
        rw [GeoNode.setChild_children] at hq
        rw [GeoNode.setChild_node_type]
        rcases mem_dictSet hq with hq | hq
        · subst hq
          simp only [insertLevels_node_type]
          exact hc.1
        · exact (hn.children_of q hq).1
      · intro q hq
        rw [GeoNode.setChild_children] at hq
        rcases mem_dictSet hq with hq | hq
        · subst hq
          refine ih hc.2 ?_
          rw [hc.1]
          exact hrest
        · exact (hn.children_of q hq).2
    | none =>
      rw [insertLevels_cons_none t rest h]
      constructor
      · intro q hq
        rw [GeoNode.children_mk] at hq
        rw [GeoNode.node_type_mk]
        rcases List.mem_append.mp hq with hq | hq
        · exact (hn.children_of q hq).1
        · have hq : q = (k, insertLevels (GeoNode.mk k t []) rest) := by simpa using hq
          subst hq
          simp only [insertLevels_node_type, GeoNode.node_type_mk]
          exact ht
      · intro q hq
        rw [GeoNode.children_mk] at hq
        rcases List.mem_append.mp hq with hq | hq
        · exact (hn.children_of q hq).2
        · have hq : q = (k, insertLevels (GeoNode.mk k t []) rest) := by simpa using hq
          subst hq
          refine ih ?_ ?_
          · constructor
            · intro q' hq'
              simp [GeoNode.children_mk] at hq'
            · intro q' hq'
              simp [GeoNode.children_mk] at hq'
          · rw [GeoNode.node_type_mk, ht]
            exact hrest

theorem entryLevels_consec (e : GeoEntry) : consecFrom 2 (entryLevels e) := by
  rcases e with ⟨r, p, c, s, num, u⟩
  cases num <;> cases u <;> simp [entryLevels, consecFrom, NodeType.value]

/-- The builder invariant: a PLANET root whose children dictionary is
exactly the single hardcoded COUNTRY binding, and level-ordered children
everywhere. -/
def BuilderInv (g : GeoGraph) : Prop :=
  g.root.node_type = NodeType.PLANET ∧
  (∃ cn, g.root.children = [(countryLabel, cn)] ∧ cn.node_type = NodeType.COUNTRY) ∧
  LevelsOk g.root

theorem add_child_builderInv {g g' : GeoGraph} {e : GeoEntry}
    (hg : BuilderInv g) (h : g.add_child e = Except.ok g') : BuilderInv g' := by
  obtain ⟨htype, ⟨cn, hch, hcn⟩, hlv⟩ := hg
  unfold GeoGraph.add_child at h
  split at h
  case isFalse => exact Except.noConfusion h
  case isTrue hv =>
    rw [hch] at h
    simp [dictGet] at h
    subst h
    refine ⟨htype, ⟨insertLevels cn (entryLevels e), ?_, ?_⟩, ?_⟩
    · rw [GeoNode.setChild_children, hch]
      simp [dictSet]
    · rw [insertLevels_node_type]
      exact hcn
    · constructor
      · intro q hq
        rw [GeoNode.setChild_children, hch] at hq
        simp only [dictSet, if_pos rfl] at hq
        have hq : q = (countryLabel, insertLevels cn (entryLevels e)) := by simpa using hq
        subst hq
        rw [GeoNode.setChild_node_type]
        simp only [insertLevels_node_type, hcn, htype, NodeType.value]
      · intro q hq
        rw [GeoNode.setChild_children, hch] at hq
        simp only [dictSet, if_pos rfl] at hq
        have hq : q = (countryLabel, insertLevels cn (entryLevels e)) := by simpa using hq
        subst hq
        refine insertLevels_levelsOk ?_ ?_
        · have hmem : (countryLabel, cn) ∈ g.root.children := by
            rw [hch]; exact List.mem_singleton.mpr rfl
          exact (hlv.children_of _ hmem).2
        · rw [hcn]
          exact entryLevels_consec e

theorem insertAll_builderInv {g : GeoGraph} {es : List GeoEntry} (hg : BuilderInv g) :
    BuilderInv (insertAll g es) := by
  induction es generalizing g with
  | nil => exact hg
  | cons e rest ih =>
    have step : insertAll g (e :: rest) =
        insertAll (match g.add_child e with
          | Except.ok g' => g'
          | Except.error _ => g) rest := rfl
    rw [step]
    cases h : g.add_child e with
    | ok g' =>
      simp only [h]
      exact ih (add_child_builderInv hg h)
    | error err =>
      simp only [h]
      exact ih hg

theorem builderInv_initialGraph : BuilderInv initialGraph := by
  refine ⟨rfl, ⟨GeoNode.mk countryLabel NodeType.COUNTRY [], rfl, rfl⟩, ?_⟩
  constructor
  · intro p hp
    simp only [initialGraph, GeoNode.children_mk, List.mem_singleton] at hp
    subst hp
    rfl
  · intro p hp
    simp only [initialGraph, GeoNode.children_mk, List.mem_singleton] at hp
    subst hp
    constructor
    · intro q hq
      simp [GeoNode.children_mk] at hq
    · intro q hq
      simp [GeoNode.children_mk] at hq

/-! ### Inversion of add_child -/

theorem add_child_ok_iff {g : GeoGraph} {e : GeoEntry} {g' : GeoGraph} :
    g.add_child e = Except.ok g' ↔
      (e.is_valid = true ∧ ∃ cn, dictGet g.root.children countryLabel = some cn ∧
        g' = ⟨g.root.setChild countryLabel (insertLevels cn (entryLevels e))⟩) := by
  unfold GeoGraph.add_child
  split
  case isTrue hv =>
    cases hc : dictGet g.root.children countryLabel with
    | some cn => simp [hv, hc, eq_comm]
    | none => simp [hv, hc]
  case isFalse hv =>
    simp only [Bool.not_eq_true] at hv
    simp [hv]

theorem add_child_invalid {g : GeoGraph} {e : GeoEntry} (h : e.is_valid = false) :
    g.add_child e = Except.error GeoError.valueError := by
  unfold GeoGraph.add_child
  simp [h]

theorem add_child_noCountry {g : GeoGraph} {e : GeoEntry} (hv : e.is_valid = true)
    (hc : dictGet g.root.children countryLabel = none) :
    g.add_child e = Except.error GeoError.keyError := by
  unfold GeoGraph.add_child
  simp [hv, hc]

/-! ### Monotone growth -/

/-- `Extends n n'`: the node `n'` has the same label and level as `n`, and
every child binding of `n` is still present in `n'` under the same key,
mapping to a node that extends the old child. -/
inductive Extends : GeoNode → GeoNode → Prop where
  | intro : ∀ (n n' : GeoNode),
      n.label = n'.label →
      n.node_type = n'.node_type →
      (∀ (k : String) (c : GeoNode), dictGet n.children k = some c →
        (dictGet n'.children k).isSome = true) →
      (∀ (k : String) (c c' : GeoNode), dictGet n.children k = some c →
        dictGet n'.children k = some c' → Extends c c') →
      Extends n n'

theorem extends_refl : (n : GeoNode) → Extends n n
  | GeoNode.mk l t cs =>
    Extends.intro _ _ rfl rfl
      (fun _ _ h => by rw [h]; rfl)
      (fun k c c' h h' => by
        have hm : (k, c) ∈ cs := dictGet_mem h
        rw [h] at h'
        cases h'
        exact extends_refl c)
termination_by n => sizeOf n
decreasing_by
  have h1 := List.sizeOf_lt_of_mem hm
  simp only [Prod.mk.sizeOf_spec] at h1
  simp only [GeoNode.mk.sizeOf_spec]
  omega

theorem insertLevels_extends (L : List (String × NodeType)) :
    ∀ n : GeoNode, Extends n (insertLevels n L) := by
  induction L with
  | nil => exact fun n => extends_refl n
  | cons p rest ih =>
    intro n
    obtain ⟨k, t⟩ := p
    cases h : dictGet n.children k with
    | some c =>
      rw [insertLevels_cons_some t rest h]
      refine Extends.intro _ _ (GeoNode.setChild_label n k _).symm
        (GeoNode.setChild_node_type n k _).symm ?_ ?_
      · intro k' c' hgc
        rw [GeoNode.setChild_children]
        by_cases hk : k' = k
        · subst hk; rw [dictGet_dictSet_self]; rfl
        · rw [dictGet_dictSet_ne _ _ hk, hgc]; rfl
      · intro k' c₁ c₂ hgc hgc'
        rw [GeoNode.setChild_children] at hgc'
        by_cases hk : k' = k
        · subst hk
          rw [dictGet_dictSet_self] at hgc'
          rw [h] at hgc
          cases hgc
          cases hgc'
          exact ih c
        · rw [dictGet_dictSet_ne _ _ hk, hgc] at hgc'
          cases hgc'
          exact extends_refl c₁
    | none =>
      rw [insertLevels_cons_none t rest h]
      refine Extends.intro _ _ rfl rfl ?_ ?_
      · intro k' c' hgc
        rw [GeoNode.children_mk]
        rw [dictGet_append_some _ hgc]
        rfl
      · intro k' c₁ c₂ hgc hgc'
        rw [GeoNode.children_mk, dictGet_append_some _ hgc] at hgc'
        cases hgc'
        exact extends_refl c₁

theorem add_child_extends {g g' : GeoGraph} {e : GeoEntry}
    (h : g.add_child e = Except.ok g') : Extends g.root g'.root := by
  rw [add_child_ok_iff] at h
  obtain ⟨hv, cn, hc, hg'⟩ := h
  subst hg'
  refine Extends.intro _ _ (GeoNode.setChild_label _ _ _).symm
    (GeoNode.setChild_node_type _ _ _).symm ?_ ?_
  · intro k c hk
    rw [GeoNode.setChild_children]
    by_cases hkc : k = countryLabel
    · subst hkc; rw [dictGet_dictSet_self]; rfl
    · rw [dictGet_dictSet_ne _ _ hkc, hk]; rfl
  · intro k c c' hk hk'
    rw [GeoNode.setChild_children] at hk'
    by_cases hkc : k = countryLabel
    · subst hkc
      rw [dictGet_dictSet_self] at hk'
      rw [hc] at hk
      cases hk
      cases hk'
      exact insertLevels_extends _ _
    · rw [dictGet_dictSet_ne _ _ hkc, hk] at hk'
      cases hk'
      exact extends_refl c

/-! ### Idempotence -/

theorem GeoNode.setChild_setChild (n : GeoNode) (k : String) (v v' : GeoNode) :
    (n.setChild k v).setChild k v' = n.setChild k v' := by
  unfold GeoNode.setChild
  rw [GeoNode.children_mk, GeoNode.label_mk, GeoNode.node_type_mk, dictSet_dictSet]

theorem insertLevels_idem (L : List (String × NodeType)) :
    ∀ n : GeoNode, insertLevels (insertLevels n L) L = insertLevels n L := by
  induction L with
  | nil => intro n; rfl
  | cons p rest ih =>
    intro n
    obtain ⟨k, t⟩ := p
    have hget := dictGet_insertLevels_self n k t rest
    rw [insertLevels_cons_some t rest hget, ih]
    unfold GeoNode.setChild
    rw [dictSet_eq_self hget]
    exact GeoNode.eta _

theorem add_child_idem {g g' : GeoGraph} {e : GeoEntry}
    (h : g.add_child e = Except.ok g') : g'.add_child e = Except.ok g' := by
  rw [add_child_ok_iff] at h
  obtain ⟨hv, cn, hc, hg'⟩ := h
  subst hg'
  rw [add_child_ok_iff]
  refine ⟨hv, insertLevels cn (entryLevels e), ?_, ?_⟩
  · rw [GeoNode.setChild_children, dictGet_dictSet_self]
  · rw [insertLevels_idem]
    rw [GeoNode.setChild_setChild]

/-! ### Fresh chains and paths -/

theorem insertLevels_fresh (L : List (String × NodeType)) :
    ∀ (l : String) (t : NodeType), insertLevels (GeoNode.mk l t []) L = freshChain l t L := by
  induction L with
  | nil => intro l t; rfl
  | cons p rest ih =>
    intro l t
    obtain ⟨k, t'⟩ := p
    rw [@insertLevels_cons_none (GeoNode.mk l t []) k t' rest rfl]
    rw [ih]
    simp [freshChain, GeoNode.label_mk, GeoNode.node_type_mk, GeoNode.children_mk]

theorem freshChain_label (L : List (String × NodeType)) (l : String) (t : NodeType) :
    (freshChain l t L).label = l := by
  cases L with
  | nil => rfl
  | cons p rest => obtain ⟨k, t'⟩ := p; rfl

theorem freshChain_node_type (L : List (String × NodeType)) (l : String) (t : NodeType) :
    (freshChain l t L).node_type = t := by
  cases L with
  | nil => rfl
  | cons p rest => obtain ⟨k, t'⟩ := p; rfl

theorem findPath_insert_isSome (L : List (String × NodeType)) :
    ∀ (n : GeoNode) (j : Nat),
      ∃ m, findPath (insertLevels n L) ((L.take j).map Prod.fst) = some m := by
  induction L with
  | nil => intro n j; exact ⟨n, by simp [findPath, insertLevels_nil]⟩
  | cons p rest ih =>
    intro n j
    obtain ⟨k, t⟩ := p
    cases j with
    | zero => exact ⟨insertLevels n ((k, t) :: rest), by simp [findPath]⟩
    | succ j' =>
      obtain ⟨m, hm⟩ := ih (getOrNew n k t) j'
      refine ⟨m, ?_⟩
      simp only [List.take_succ_cons, List.map_cons, findPath, dictGet_insertLevels_self]
      exact hm

/-! ### Extensional tree equivalence and insertion-order commutativity -/

/-- Extensional equality of trees as nested label-keyed mappings: same
label, same level, the same set of child keys, and pointwise equivalent
children (child enumeration order is ignored). -/
inductive NodeEquiv : GeoNode → GeoNode → Prop where
  | intro : ∀ (n₁ n₂ : GeoNode),
      n₁.label = n₂.label →
      n₁.node_type = n₂.node_type →
      (∀ k : String, (dictGet n₁.children k).isSome = (dictGet n₂.children k).isSome) →
      (∀ (k : String) (c₁ c₂ : GeoNode), dictGet n₁.children k = some c₁ →
        dictGet n₂.children k = some c₂ → NodeEquiv c₁ c₂) →
      NodeEquiv n₁ n₂

theorem nodeEquiv_refl : (n : GeoNode) → NodeEquiv n n
  | GeoNode.mk l t cs =>
    NodeEquiv.intro _ _ rfl rfl (fun _ => rfl)
      (fun k c₁ c₂ h h' => by
        have hm : (k, c₁) ∈ cs := dictGet_mem h
        rw [h] at h'
        cases h'
        exact nodeEquiv_refl c₁)
termination_by n => sizeOf n
decreasing_by
  have h1 := List.sizeOf_lt_of_mem hm
  simp only [Prod.mk.sizeOf_spec] at h1
  simp only [GeoNode.mk.sizeOf_spec]
  omega

theorem getOrNew_eq_of_some {n : GeoNode} {k : String} {c : GeoNode} (t : NodeType)
    (h : dictGet n.children k = some c) : getOrNew n k t = c := by
  unfold getOrNew
  rw [h]

theorem getOrNew_insertLevels_self (n : GeoNode) (k : String) (t : NodeType)
    (rest : List (String × NodeType)) (t' : NodeType) :
    getOrNew (insertLevels n ((k, t) :: rest)) k t' =
      insertLevels (getOrNew n k t) rest :=
  getOrNew_eq_of_some t' (dictGet_insertLevels_self n k t rest)

theorem getOrNew_insertLevels_ne {k' k : String} (n : GeoNode) (t : NodeType)
    (rest : List (String × NodeType)) (t' : NodeType) (hne : k' ≠ k) :
    getOrNew (insertLevels n ((k, t) :: rest)) k' t' = getOrNew n k' t' := by
  unfold getOrNew
  rw [dictGet_insertLevels_ne _ _ _ hne]

theorem insertLevels_swap (L₁ : List (String × NodeType)) :
    ∀ (L₂ : List (String × NodeType)) (n : GeoNode),
      LevelsOk n → consecFrom (n.node_type.value + 1) L₁ →
      consecFrom (n.node_type.value + 1) L₂ →
      NodeEquiv (insertLevels (insertLevels n L₁) L₂)
        (insertLevels (insertLevels n L₂) L₁) := by
  induction L₁ with
  | nil => intro L₂ n _ _ _; exact nodeEquiv_refl _
  | cons p₁ r₁ ih =>
    intro L₂ n hn h₁ h₂
    obtain ⟨k₁, t₁⟩ := p₁
    cases L₂ with
    | nil => exact nodeEquiv_refl _
    | cons p₂ r₂ =>
      obtain ⟨k₂, t₂⟩ := p₂
      obtain ⟨ht₁, hr₁⟩ := h₁
      obtain ⟨ht₂, hr₂⟩ := h₂
      by_cases hk : k₂ = k₁
      · subst hk
        have htt : t₂ = t₁ := NodeType.value_inj (by rw [ht₂, ht₁])
        subst htt
        have hcok : LevelsOk (getOrNew n k₂ t₂) := by
          unfold getOrNew
          cases hg : dictGet n.children k₂ with
          | some c0 => exact (hn.children_of (k₂, c0) (dictGet_mem hg)).2
          | none =>
            constructor
            · intro q hq; simp [GeoNode.children_mk] at hq
            · intro q hq; simp [GeoNode.children_mk] at hq
        have hcval : (getOrNew n k₂ t₂).node_type.value = n.node_type.value + 1 := by
          unfold getOrNew
          cases hg : dictGet n.children k₂ with
          | some c0 => exact (hn.children_of (k₂, c0) (dictGet_mem hg)).1
          | none => rw [GeoNode.node_type_mk]; exact ht₂
        refine NodeEquiv.intro _ _ ?_ ?_ ?_ ?_
        · simp only [insertLevels_label]
        · simp only [insertLevels_node_type]
        · intro k
          by_cases hk' : k = k₂
          · subst hk'
            rw [dictGet_insertLevels_self, dictGet_insertLevels_self]
            rfl
          · rw [dictGet_insertLevels_ne _ _ _ hk', dictGet_insertLevels_ne _ _ _ hk',
              dictGet_insertLevels_ne _ _ _ hk', dictGet_insertLevels_ne _ _ _ hk']
        · intro k c₁ c₂ hc₁ hc₂
          by_cases hk' : k = k₂
          · subst hk'
            rw [dictGet_insertLevels_self, getOrNew_insertLevels_self] at hc₁ hc₂
            cases hc₁
            cases hc₂
            refine ih r₂ _ hcok ?_ ?_
            · rw [hcval]; exact hr₁
            · rw [hcval]; exact hr₂
          · rw [dictGet_insertLevels_ne _ _ _ hk', dictGet_insertLevels_ne _ _ _ hk'] at hc₁
            rw [dictGet_insertLevels_ne _ _ _ hk', dictGet_insertLevels_ne _ _ _ hk'] at hc₂
            rw [hc₁] at hc₂
            cases hc₂
            exact nodeEquiv_refl c₁
      · have hk₁₂ : k₁ ≠ k₂ := fun hh => hk hh.symm
        refine NodeEquiv.intro _ _ ?_ ?_ ?_ ?_
        · simp only [insertLevels_label]
        · simp only [insertLevels_node_type]
        · intro k
          by_cases hkA : k = k₁
          · subst hkA
            rw [dictGet_insertLevels_ne _ _ _ hk₁₂, dictGet_insertLevels_self,
              dictGet_insertLevels_self]
            rfl
          · by_cases hkB : k = k₂
            · subst hkB
              rw [dictGet_insertLevels_self, dictGet_insertLevels_ne _ _ _ hk,
                dictGet_insertLevels_self]
              rfl
            · rw [dictGet_insertLevels_ne _ _ _ hkB, dictGet_insertLevels_ne _ _ _ hkA,
                dictGet_insertLevels_ne _ _ _ hkA, dictGet_insertLevels_ne _ _ _ hkB]
        · intro k c₁ c₂ hc₁ hc₂
          by_cases hkA : k = k₁
          · subst hkA
            rw [dictGet_insertLevels_ne _ _ _ hk₁₂, dictGet_insertLevels_self] at hc₁
            rw [dictGet_insertLevels_self, getOrNew_insertLevels_ne _ _ _ _ hk₁₂] at hc₂
            cases hc₁
            cases hc₂
            exact nodeEquiv_refl _
          · by_cases hkB : k = k₂
            · subst hkB
              rw [dictGet_insertLevels_self, getOrNew_insertLevels_ne _ _ _ _ hk] at hc₁
              rw [dictGet_insertLevels_ne _ _ _ hk, dictGet_insertLevels_self] at hc₂
              cases hc₁
              cases hc₂
              exact nodeEquiv_refl _
            · rw [dictGet_insertLevels_ne _ _ _ hkB, dictGet_insertLevels_ne _ _ _ hkA] at hc₁
              rw [dictGet_insertLevels_ne _ _ _ hkA, dictGet_insertLevels_ne _ _ _ hkB] at hc₂
              rw [hc₁] at hc₂
              cases hc₂
              exact nodeEquiv_refl c₁

/-! ### Chain shapes for shared-prefix insertions -/

/-- The NUMBER/UNIT suffix of the walk: empty when the number is absent
(early return at NUMBER), the number binding alone when the unit is absent
(early return at UNIT), both bindings otherwise. -/
def entryTail (e : GeoEntry) : List (String × NodeType) :=
  match e.number with
  | none => []
  | some n =>
      (n, NodeType.NUMBER) ::
        match e.unit with
        | none => []
        | some u => [(u, NodeType.UNIT)]

theorem entryLevels_eq_append (e : GeoEntry) :
    entryLevels e =
      [(e.region.getD "", NodeType.REGION), (e.city.getD "", NodeType.CITY),
       (e.postcode.getD "", NodeType.POSTCODE), (e.street.getD "", NodeType.STREET)]
      ++ entryTail e := rfl

theorem entryLevels_of_fields {e : GeoEntry} {r c p s : String}
    (hr : e.region = some r) (hc : e.city = some c) (hp : e.postcode = some p)
    (hs : e.street = some s) :
    entryLevels e = (r, NodeType.REGION) :: (c, NodeType.CITY) ::
      (p, NodeType.POSTCODE) :: (s, NodeType.STREET) :: entryTail e := by
  rw [entryLevels_eq_append, hr, hc, hp, hs]
  simp

theorem is_valid_of_fields {e : GeoEntry} {r c p s : String}
    (hr : e.region = some r) (hc : e.city = some c) (hp : e.postcode = some p)
    (hs : e.street = some s) : e.is_valid = true := by
  simp [GeoEntry.is_valid, hr, hc, hp, hs]

theorem insertLevels_singleton_step (l : String) (ty : NodeType) (k : String)
    (x : GeoNode) (t : NodeType) (rest : List (String × NodeType)) :
    insertLevels (GeoNode.mk l ty [(k, x)]) ((k, t) :: rest) =
      GeoNode.mk l ty [(k, insertLevels x rest)] := by
  rw [@insertLevels_cons_some (GeoNode.mk l ty [(k, x)]) k x t rest
    (by simp [GeoNode.children_mk, dictGet])]
  simp [GeoNode.setChild, GeoNode.children_mk, GeoNode.label_mk, GeoNode.node_type_mk,
    dictSet]

theorem add_child_initial {e : GeoEntry} {r c p s : String}
    (hr : e.region = some r) (hc : e.city = some c) (hp : e.postcode = some p)
    (hs : e.street = some s) :
    initialGraph.add_child e =
      Except.ok (chainGraph r c p s (freshChain s NodeType.STREET (entryTail e))) := by
  rw [add_child_ok_iff]
  refine ⟨is_valid_of_fields hr hc hp hs, GeoNode.mk countryLabel NodeType.COUNTRY [], ?_, ?_⟩
  · simp [initialGraph, GeoNode.children_mk, dictGet]
  · rw [insertLevels_fresh, entryLevels_of_fields hr hc hp hs]
    simp only [chainGraph, initialGraph, GeoNode.setChild, GeoNode.children_mk,
      GeoNode.label_mk, GeoNode.node_type_mk, freshChain]
    simp [dictSet]

theorem add_child_chain {e : GeoEntry} {r c p s : String} (ss : GeoNode)
    (hr : e.region = some r) (hc : e.city = some c) (hp : e.postcode = some p)
    (hs : e.street = some s) :
    (chainGraph r c p s ss).add_child e =
      Except.ok (chainGraph r c p s (insertLevels ss (entryTail e))) := by
  rw [add_child_ok_iff]
  refine ⟨is_valid_of_fields hr hc hp hs,
    GeoNode.mk countryLabel NodeType.COUNTRY
      [(r, GeoNode.mk r NodeType.REGION
        [(c, GeoNode.mk c NodeType.CITY
          [(p, GeoNode.mk p NodeType.POSTCODE [(s, ss)])])])], ?_, ?_⟩
  · simp [chainGraph, GeoNode.children_mk, dictGet]
  · rw [entryLevels_of_fields hr hc hp hs]
    rw [insertLevels_singleton_step, insertLevels_singleton_step,
      insertLevels_singleton_step, insertLevels_singleton_step]
    simp only [chainGraph, GeoNode.setChild, GeoNode.children_mk, GeoNode.label_mk,
      GeoNode.node_type_mk]
    simp [dictSet]

theorem insertAll_chain {r c p s : String} (es : List GeoEntry) :
    ∀ ss : GeoNode,
      (∀ e ∈ es, e.region = some r ∧ e.city = some c ∧ e.postcode = some p ∧
        e.street = some s) →
      ∃ ss', insertAll (chainGraph r c p s ss) es = chainGraph r c p s ss' ∧
        ss'.label = ss.label ∧ ss'.node_type = ss.node_type := by
  induction es with
  | nil => intro ss _; exact ⟨ss, rfl, rfl, rfl⟩
  | cons e rest ih =>
    intro ss hall
    obtain ⟨hr, hc, hp, hs⟩ := hall e (List.mem_cons_self _ _)
    have h0 : insertAll (chainGraph r c p s ss) (e :: rest) =
        insertAll (match (chainGraph r c p s ss).add_child e with
          | Except.ok g' => g'
          | Except.error _ => chainGraph r c p s ss) rest := rfl
    rw [h0, add_child_chain ss hr hc hp hs]
    obtain ⟨ss', hss', hl, ht⟩ := ih (insertLevels ss (entryTail e))
      (fun e' he' => hall e' (List.mem_cons_of_mem _ he'))
    refine ⟨ss', hss', ?_, ?_⟩
    · rw [hl, insertLevels_label]
    · rw [ht, insertLevels_node_type]

/-! ### Small step lemmas for the driver loop -/

theorem insertAll_nil (g : GeoGraph) : insertAll g [] = g := rfl

theorem insertAll_cons (g : GeoGraph) (e : GeoEntry) (es : List GeoEntry) :
    insertAll g (e :: es) =
      insertAll (match g.add_child e with
        | Except.ok g' => g'
        | Except.error _ => g) es := rfl

theorem insertAll_two {g g₁ g₂ : GeoGraph} {e₁ e₂ : GeoEntry}
    (h₁ : g.add_child e₁ = Except.ok g₁) (h₂ : g₁.add_child e₂ = Except.ok g₂) :
    insertAll g [e₁, e₂] = g₂ := by
  rw [insertAll_cons, h₁]
  show insertAll g₁ [e₂] = g₂
  rw [insertAll_cons, h₂]
  show insertAll g₂ [] = g₂
  rfl

theorem findPath_cons (n : GeoNode) (k : String) (ks : List String) :
    findPath n (k :: ks) =
      match dictGet n.children k with
      | some c => findPath c ks
      | none => none := rfl

/-! ### Concrete sample data -/

/-- A record with all six fields present. -/
def entryFull : GeoEntry :=
  GeoEntry.mk (some "CA") (some "92101") (some "San Diego") (some "Main St")
    (some "100") (some "A")

/-- A complete record with no number and no unit. -/
def entryNoNumber : GeoEntry :=
  GeoEntry.mk (some "CA") (some "92101") (some "San Diego") (some "Main St") none none

/-- A complete record with a number but no unit. -/
def entryNoUnit : GeoEntry :=
  GeoEntry.mk (some "CA") (some "92101") (some "San Diego") (some "Main St")
    (some "100") none

/-- An incomplete record: the city is missing. -/
def entryNoCity : GeoEntry :=
  GeoEntry.mk (some "CA") (some "92101") none (some "Main St") (some "100") none

/-- A complete record sharing region/city/postcode with `entryFull` but on
a different street. -/
def entryB : GeoEntry :=
  GeoEntry.mk (some "CA") (some "92101") (some "San Diego") (some "Broadway")
    (some "200") none

/-- The graph obtained by inserting `entryFull` into the pre-seeded
builder. -/
def graphFull : GeoGraph :=
  match initialGraph.add_child entryFull with
  | Except.ok g' => g'
  | Except.error _ => initialGraph

theorem add_child_entryFull : initialGraph.add_child entryFull = Except.ok graphFull := rfl

/-- A builder whose root was not seeded with the country child. -/
def noCountryGraph : GeoGraph := ⟨GeoNode.mk "Earth" NodeType.PLANET []⟩

/-! ### Claims -/

/-- C1: get_or_create_child returns the existing child unchanged when the
label is already bound, so inserting the identical complete record twice
yields the same tree as inserting it once, and a sequence of complete
records sharing region/city/postcode/street yields exactly one node at
each shared level (a single chain above the street node). -/
theorem claim_c1 :
    (∀ (parent_node : GeoNode) (child_label : String) (child_type : NodeType)
        (c : GeoNode), dictGet parent_node.children child_label = some c →
        GeoGraph._add_child parent_node child_label child_type = (parent_node, c)) ∧
    (∀ (g g' : GeoGraph) (e : GeoEntry),
        g.add_child e = Except.ok g' → g'.add_child e = Except.ok g') ∧
    (∀ (es : List GeoEntry) (r c p s : String), es ≠ [] →
        (∀ e ∈ es, e.region = some r ∧ e.city = some c ∧ e.postcode = some p ∧
          e.street = some s) →
        ∃ ss, insertAll initialGraph es = chainGraph r c p s ss ∧
          ss.label = s ∧ ss.node_type = NodeType.STREET) := by
  refine ⟨?_, ?_, ?_⟩
  · intro pn cl ct c h
    unfold GeoGraph._add_child
    rw [h]
  · intro g g' e h
    exact add_child_idem h
  · intro es r c p s hne hall
    cases es with
    | nil => exact absurd rfl hne
    | cons e₀ rest =>
      obtain ⟨hr, hc, hp, hs⟩ := hall e₀ (List.mem_cons_self _ _)
      rw [insertAll_cons, add_child_initial hr hc hp hs]
      show ∃ ss, insertAll (chainGraph r c p s
        (freshChain s NodeType.STREET (entryTail e₀))) rest = chainGraph r c p s ss ∧
        ss.label = s ∧ ss.node_type = NodeType.STREET
      obtain ⟨ss', hss', hl, ht⟩ := insertAll_chain rest
        (freshChain s NodeType.STREET (entryTail e₀))
        (fun e' he' => hall e' (List.mem_cons_of_mem _ he'))
      refine ⟨ss', hss', ?_, ?_⟩
      · rw [hl, freshChain_label]
      · rw [ht, freshChain_node_type]

theorem claim_c1_witness :
    GeoGraph._add_child
        (GeoNode.mk "USA" NodeType.COUNTRY [("CA", GeoNode.mk "CA" NodeType.REGION [])])
        "CA" NodeType.REGION =
      (GeoNode.mk "USA" NodeType.COUNTRY [("CA", GeoNode.mk "CA" NodeType.REGION [])],
        GeoNode.mk "CA" NodeType.REGION []) ∧
    graphFull.add_child entryFull = Except.ok graphFull ∧
    (∃ ss, insertAll initialGraph [entryFull, entryFull] =
        chainGraph "CA" "San Diego" "92101" "Main St" ss ∧
      ss.label = "Main St" ∧ ss.node_type = NodeType.STREET) :=
  ⟨claim_c1.1 _ "CA" NodeType.REGION _ (by simp [GeoNode.children_mk, dictGet]),
   claim_c1.2.1 initialGraph graphFull entryFull add_child_entryFull,
   claim_c1.2.2 [entryFull, entryFull] "CA" "San Diego" "92101" "Main St"
     (by simp) (by decide)⟩

/-- C2: a record missing any of region/postcode/city/street is rejected
with the ValueError and the tree is left exactly unchanged; is_valid holds
iff the four required fields are present; and under a pre-seeded root,
add_child raises iff the record is incomplete. -/
theorem claim_c2 :
    (∀ e : GeoEntry, e.is_valid = true ↔
      (e.region ≠ none ∧ e.postcode ≠ none ∧ e.city ≠ none ∧ e.street ≠ none)) ∧
    (∀ (g : GeoGraph) (e : GeoEntry), e.is_valid = false →
      g.add_child e = Except.error GeoError.valueError ∧ insertAll g [e] = g) ∧
    (∀ (g : GeoGraph) (e : GeoEntry) (cn : GeoNode),
      dictGet g.root.children countryLabel = some cn →
      ((∃ err, g.add_child e = Except.error err) ↔ e.is_valid = false)) := by
  refine ⟨?_, ?_, ?_⟩
  · intro e
    simp [GeoEntry.is_valid, Bool.and_eq_true, Option.isSome_iff_ne_none, and_assoc]
  · intro g e h
    refine ⟨add_child_invalid h, ?_⟩
    rw [insertAll_cons, add_child_invalid h]
    rfl
  · intro g e cn hcn
    constructor
    · rintro ⟨err, herr⟩
      cases hv : e.is_valid with
      | false => rfl
      | true =>
        have hok : g.add_child e = Except.ok
            ⟨g.root.setChild countryLabel (insertLevels cn (entryLevels e))⟩ :=
          add_child_ok_iff.mpr ⟨hv, cn, hcn, rfl⟩
        rw [hok] at herr
        exact Except.noConfusion herr
    · intro hv
      exact ⟨GeoError.valueError, add_child_invalid hv⟩

theorem claim_c2_witness :
    (entryFull.is_valid = true ↔
      (entryFull.region ≠ none ∧ entryFull.postcode ≠ none ∧ entryFull.city ≠ none ∧
        entryFull.street ≠ none)) ∧
    (initialGraph.add_child entryNoCity = Except.error GeoError.valueError ∧
      insertAll initialGraph [entryNoCity] = initialGraph) ∧
    ((∃ err, initialGraph.add_child entryNoCity = Except.error err) ↔
      entryNoCity.is_valid = false) :=
  ⟨claim_c2.1 entryFull,
   claim_c2.2.1 initialGraph entryNoCity rfl,
   claim_c2.2.2 initialGraph entryNoCity (GeoNode.mk countryLabel NodeType.COUNTRY [])
     (by simp [initialGraph, GeoNode.children_mk, dictGet])⟩

/-- C3: for a record passing the completeness check, with the country
child pre-seeded, the four middle steps are keyed by the record's
region/city/postcode/street fields in walk order, insertion succeeds
(no failure in those steps), and the resulting tree contains the path of
those four labels under the country node. -/
theorem claim_c3 :
    ∀ (g : GeoGraph) (e : GeoEntry) (cn : GeoNode) (r c p s : String),
      e.region = some r → e.city = some c → e.postcode = some p → e.street = some s →
      dictGet g.root.children countryLabel = some cn →
      (entryLevels e).take 4 =
        [(r, NodeType.REGION), (c, NodeType.CITY), (p, NodeType.POSTCODE),
          (s, NodeType.STREET)] ∧
      ∃ g', g.add_child e = Except.ok g' ∧
        ∃ m, findPath g'.root [countryLabel, r, c, p, s] = some m := by
  intro g e cn r c p s hr hc hp hs hcn
  have htake : (entryLevels e).take 4 =
      [(r, NodeType.REGION), (c, NodeType.CITY), (p, NodeType.POSTCODE),
        (s, NodeType.STREET)] := by
    rw [entryLevels_of_fields hr hc hp hs]
    rfl
  refine ⟨htake, ⟨g.root.setChild countryLabel (insertLevels cn (entryLevels e))⟩,
    add_child_ok_iff.mpr ⟨is_valid_of_fields hr hc hp hs, cn, hcn, rfl⟩, ?_⟩
  have hmap : ((entryLevels e).take 4).map Prod.fst = [r, c, p, s] := by
    rw [htake]
    rfl
  obtain ⟨m, hm⟩ := findPath_insert_isSome (entryLevels e) cn 4
  rw [hmap] at hm
  refine ⟨m, ?_⟩
  rw [findPath_cons]
  show (match dictGet (g.root.setChild countryLabel
    (insertLevels cn (entryLevels e))).children countryLabel with
    | some c' => findPath c' [r, c, p, s]
    | none => none) = some m
  rw [GeoNode.setChild_children, dictGet_dictSet_self]
  exact hm

theorem claim_c3_witness :
    (entryLevels entryFull).take 4 =
      [("CA", NodeType.REGION), ("San Diego", NodeType.CITY),
        ("92101", NodeType.POSTCODE), ("Main St", NodeType.STREET)] ∧
    ∃ g', initialGraph.add_child entryFull = Except.ok g' ∧
      ∃ m, findPath g'.root
        [countryLabel, "CA", "San Diego", "92101", "Main St"] = some m :=
  claim_c3 initialGraph entryFull (GeoNode.mk countryLabel NodeType.COUNTRY [])
    "CA" "San Diego" "92101" "Main St" rfl rfl rfl rfl
    (by simp [initialGraph, GeoNode.children_mk, dictGet])

/-- C4: early-exit semantics on the pre-seeded fresh builder.  A complete
record with no number ends its path at the STREET node, which gets no
children (no NUMBER, no UNIT node); a complete record with a number but no
unit produces the NUMBER node with no UNIT children.  Both insertions
succeed. -/
theorem claim_c4 :
    ∀ (e : GeoEntry) (r c p s : String),
      e.region = some r → e.city = some c → e.postcode = some p → e.street = some s →
      (e.number = none →
        initialGraph.add_child e =
          Except.ok (chainGraph r c p s (GeoNode.mk s NodeType.STREET []))) ∧
      (∀ n, e.number = some n → e.unit = none →
        initialGraph.add_child e =
          Except.ok (chainGraph r c p s (GeoNode.mk s NodeType.STREET
            [(n, GeoNode.mk n NodeType.NUMBER [])]))) := by
  intro e r c p s hr hc hp hs
  constructor
  · intro hn
    have ht : entryTail e = [] := by simp [entryTail, hn]
    rw [add_child_initial hr hc hp hs, ht]
    rfl
  · intro n hn hu
    have ht : entryTail e = [(n, NodeType.NUMBER)] := by simp [entryTail, hn, hu]
    rw [add_child_initial hr hc hp hs, ht]
    rfl

theorem claim_c4_witness :
    initialGraph.add_child entryNoNumber =
      Except.ok (chainGraph "CA" "San Diego" "92101" "Main St"
        (GeoNode.mk "Main St" NodeType.STREET [])) ∧
    initialGraph.add_child entryNoUnit =
      Except.ok (chainGraph "CA" "San Diego" "92101" "Main St"
        (GeoNode.mk "Main St" NodeType.STREET
          [("100", GeoNode.mk "100" NodeType.NUMBER [])])) :=
  ⟨(claim_c4 entryNoNumber "CA" "San Diego" "92101" "Main St" rfl rfl rfl rfl).1 rfl,
   (claim_c4 entryNoUnit "CA" "San Diego" "92101" "Main St" rfl rfl rfl rfl).2
     "100" rfl rfl⟩

/-- C5: from_properties builds the record from the six recognised keys via
get_entry, and get_entry returns a present field exactly when the key is
bound in the mapping to a value that is non-empty after trimming, storing
the trimmed value; the construction is a total function (never fails). -/
theorem claim_c5 :
    ∀ props : List (String × String),
      GeoEntry.from_properties props =
        GeoEntry.mk (GeoEntry.get_entry props "region")
          (GeoEntry.get_entry props "postcode") (GeoEntry.get_entry props "city")
          (GeoEntry.get_entry props "street") (GeoEntry.get_entry props "number")
          (GeoEntry.get_entry props "unit") ∧
      (∀ (k v : String), GeoEntry.get_entry props k = some v ↔
        ∃ raw, dictGet props k = some raw ∧ raw.trim = v ∧ v ≠ "") := by
  intro props
  refine ⟨rfl, ?_⟩
  intro k v
  constructor
  · intro hv
    unfold GeoEntry.get_entry at hv
    cases h : dictGet props k with
    | none => rw [h] at hv; exact Option.noConfusion hv
    | some raw =>
      rw [h] at hv
      have hv' : (if raw.trim = "" then (none : Option String)
          else some raw.trim) = some v := hv
      by_cases he : raw.trim = ""
      · rw [if_pos he] at hv'
        exact Option.noConfusion hv'
      · rw [if_neg he] at hv'
        cases hv'
        exact ⟨raw, rfl, rfl, he⟩
  · rintro ⟨raw, hraw, htrim, hne⟩
    unfold GeoEntry.get_entry
    rw [hraw]
    show (if raw.trim = "" then (none : Option String) else some raw.trim) = some v
    rw [if_neg (htrim ▸ hne), htrim]

/-- C6: starting from a builder satisfying the pre-seeded invariant (a
PLANET root whose only child is the single COUNTRY node, with every node's
children exactly one level deeper), any sequence of add_child calls
preserves the invariant. -/
theorem claim_c6 :
    ∀ (g : GeoGraph) (es : List GeoEntry), BuilderInv g → BuilderInv (insertAll g es) :=
  fun _ _ hg => insertAll_builderInv hg

theorem claim_c6_witness : BuilderInv (insertAll initialGraph [entryFull, entryB]) :=
  claim_c6 initialGraph [entryFull, entryB] builderInv_initialGraph

/-- C7 counterexample: with the country child not pre-seeded, add_child on
a complete record does raise the KeyError; but the driver loop catches it
exactly like a missing-data error, counting the record among the skipped
incomplete records and continuing with the graph unchanged, rather than
aborting the run as the claim states. -/
theorem claim_c7_counterexample :
    noCountryGraph.add_child entryFull = Except.error GeoError.keyError ∧
    processEntry (RunState.mk noCountryGraph 0 0) entryFull =
      RunState.mk noCountryGraph 1 1 :=
  ⟨rfl, rfl⟩

/-- C7 (amended): if the country child was not pre-seeded, add_child on a
complete record raises the KeyError and performs no mutation; the driver
recovers it per record exactly like the missing-data error — the graph is
kept, the processed and incomplete counters are both incremented, and the
run continues. -/
theorem claim_c7 :
    ∀ (g : GeoGraph) (e : GeoEntry) (st : RunState),
      e.is_valid = true →
      dictGet g.root.children countryLabel = none →
      st.g = g →
      g.add_child e = Except.error GeoError.keyError ∧
      processEntry st e =
        RunState.mk g (st.num_processed + 1) (st.num_incomplete + 1) := by
  intro g e st hv hc hst
  have herr := add_child_noCountry hv hc
  refine ⟨herr, ?_⟩
  unfold processEntry
  rw [hst, herr]

theorem claim_c7_witness :
    noCountryGraph.add_child entryNoUnit = Except.error GeoError.keyError ∧
    processEntry (RunState.mk noCountryGraph 5 2) entryNoUnit =
      RunState.mk noCountryGraph 6 3 :=
  claim_c7 noCountryGraph entryNoUnit (RunState.mk noCountryGraph 5 2) rfl rfl rfl

/-- C8: for every record, the walk visits the levels in strictly
increasing enum-value order, visiting each level at most once, over at
most 8 levels in total and at most 8 get-or-create steps; and add_child
always terminates with a result (success or error) on every builder
state. -/
theorem claim_c8 :
    ∀ e : GeoEntry,
      List.Chain' (fun a b : NodeType => a.value < b.value) (visitedTypes e) ∧
      (visitedTypes e).Nodup ∧
      (visitedTypes e).length ≤ 8 ∧
      (entryLevels e).length ≤ 8 ∧
      ∀ g : GeoGraph, (∃ g', g.add_child e = Except.ok g') ∨
        (∃ err, g.add_child e = Except.error err) := by
  intro e
  obtain ⟨r, p, c, s, num, u⟩ := e
  refine ⟨?_, ?_, ?_, ?_, fun g => ?_⟩
  · cases num <;> cases u <;>
      simp [visitedTypes, entryLevels] <;> decide
  · cases num <;> cases u <;>
      simp [visitedTypes, entryLevels]
  · cases num <;> cases u <;>
      simp [visitedTypes, entryLevels]
  · cases num <;> cases u <;>
      simp [entryLevels]
  · cases h : GeoGraph.add_child g (GeoEntry.mk r p c s num u) with
    | ok g' => exact Or.inl ⟨g', rfl⟩
    | error err => exact Or.inr ⟨err, rfl⟩

/-- C9: add_child never removes, relabels or retypes an existing node: on
success every node of the old tree is still present with the same label,
level and all its previous children (the tree extends the old one), and on
failure the tree is exactly unchanged. -/
theorem claim_c9 :
    ∀ (g : GeoGraph) (e : GeoEntry),
      (∀ g', g.add_child e = Except.ok g' → Extends g.root g'.root) ∧
      (∀ err, g.add_child e = Except.error err → insertAll g [e] = g) := by
  intro g e
  constructor
  · intro g' h
    exact add_child_extends h
  · intro err h
    rw [insertAll_cons, h]
    rfl

theorem claim_c9_witness :
    Extends initialGraph.root graphFull.root ∧
    insertAll noCountryGraph [entryNoCity] = noCountryGraph :=
  ⟨(claim_c9 initialGraph entryFull).1 graphFull add_child_entryFull,
   (claim_c9 noCountryGraph entryNoCity).2 GeoError.valueError rfl⟩

/-- C10: on any pre-seeded builder, inserting two complete records in
either order yields trees that are equal as nested label-keyed mappings,
ignoring child enumeration order. -/
theorem claim_c10 :
    ∀ (g : GeoGraph) (e₁ e₂ : GeoEntry),
      BuilderInv g → e₁.is_valid = true → e₂.is_valid = true →
      NodeEquiv (insertAll g [e₁, e₂]).root (insertAll g [e₂, e₁]).root := by
  intro g e₁ e₂ hg hv₁ hv₂
  obtain ⟨htype, ⟨cn, hch, hcn⟩, hlv⟩ := hg
  have hget : dictGet g.root.children countryLabel = some cn := by
    rw [hch]
    simp [dictGet]
  have hcnok : LevelsOk cn := by
    have hmem : (countryLabel, cn) ∈ g.root.children := by
      rw [hch]
      exact List.mem_singleton.mpr rfl
    exact (hlv.children_of _ hmem).2
  have hswap : NodeEquiv
      (insertLevels (insertLevels cn (entryLevels e₁)) (entryLevels e₂))
      (insertLevels (insertLevels cn (entryLevels e₂)) (entryLevels e₁)) := by
    refine insertLevels_swap (entryLevels e₁) (entryLevels e₂) cn hcnok ?_ ?_
    · rw [hcn]
      exact entryLevels_consec e₁
    · rw [hcn]
      exact entryLevels_consec e₂
  have hone : ∀ e : GeoEntry, e.is_valid = true →
      g.add_child e = Except.ok
        ⟨g.root.setChild countryLabel (insertLevels cn (entryLevels e))⟩ :=
    fun e hv => add_child_ok_iff.mpr ⟨hv, cn, hget, rfl⟩
  have htwo : ∀ e e' : GeoEntry, e'.is_valid = true →
      (⟨g.root.setChild countryLabel (insertLevels cn (entryLevels e))⟩ :
          GeoGraph).add_child e' =
        Except.ok ⟨g.root.setChild countryLabel
          (insertLevels (insertLevels cn (entryLevels e)) (entryLevels e'))⟩ := by
    intro e e' hv
    refine add_child_ok_iff.mpr ⟨hv, insertLevels cn (entryLevels e), ?_, ?_⟩
    · show dictGet (g.root.setChild countryLabel
        (insertLevels cn (entryLevels e))).children countryLabel = _
      rw [GeoNode.setChild_children, dictGet_dictSet_self]
    · rw [GeoNode.setChild_setChild]
  rw [insertAll_two (hone e₁ hv₁) (htwo e₁ e₂ hv₂),
    insertAll_two (hone e₂ hv₂) (htwo e₂ e₁ hv₁)]
  show NodeEquiv (g.root.setChild countryLabel
      (insertLevels (insertLevels cn (entryLevels e₁)) (entryLevels e₂)))
    (g.root.setChild countryLabel
      (insertLevels (insertLevels cn (entryLevels e₂)) (entryLevels e₁)))
  refine NodeEquiv.intro _ _ ?_ ?_ ?_ ?_
  · rw [GeoNode.setChild_label, GeoNode.setChild_label]
  · rw [GeoNode.setChild_node_type, GeoNode.setChild_node_type]
  · intro k
    rw [GeoNode.setChild_children, GeoNode.setChild_children]
    by_cases hk : k = countryLabel
    · subst hk
      rw [dictGet_dictSet_self, dictGet_dictSet_self]
      rfl
    · rw [dictGet_dictSet_ne _ _ hk, dictGet_dictSet_ne _ _ hk]
  · intro k c₁ c₂ h₁ h₂
    rw [GeoNode.setChild_children] at h₁ h₂
    by_cases hk : k = countryLabel
    · subst hk
      rw [dictGet_dictSet_self] at h₁ h₂
      cases h₁
      cases h₂
      exact hswap
    · rw [dictGet_dictSet_ne _ _ hk] at h₁ h₂
      rw [h₁] at h₂
      cases h₂
      exact nodeEquiv_refl c₁

theorem claim_c10_witness :
    NodeEquiv (insertAll initialGraph [entryFull, entryB]).root
      (insertAll initialGraph [entryB, entryFull]).root :=
  claim_c10 initialGraph entryFull entryB builderInv_initialGraph rfl rfl
